import Mathlib

/-!
Verification of the junkie dependency-injection resolver.

This file gives a shallow embedding of the resolver implemented in
src/junkie/_junkie.py (class Junkie) together with proofs of the spec
claims about it.  Python objects are modelled as follows:

* A factory (a Python callable) is identified by a natural number; its
  reflective signature data, plus the behavioural facts the resolver
  probes at runtime (membership in BUILTINS, whether inspect.signature
  fails, whether the call raises, whether the produced instance has an
  enter attribute), live in a FactorySpec table of type Nat → FactorySpec.
* Instances are values with identity: each factory invocation allocates a
  fresh object id from a counter, so same-identity questions become id
  equality.
* The registry dict self._context and the per-scope dicts
  self._instances_by_name are association lists with Python dict update
  semantics (update in place keeps the position of an existing key, a new
  key is appended at the end).
* In the Python code the attribute self._instances_by_name is always an
  alias of self._instances_by_name_stack.peek() (it is reassigned to the
  pushed copy on scope entry and to the new top on normal scope exit, and
  on the exception path neither the pop nor the reassignment runs, so the
  alias still equals the top).  The embedding therefore keeps only the
  frame stack and reads the head as the current dict.
* Exceptions are modelled with Except; state mutations performed before a
  raise persist, exactly as in Python, so the embedding threads the state
  through error results instead of rolling it back.
* Recursion is bounded by explicit fuel; running out of fuel is a
  distinguished outcome (JError.fuel) that the Python code cannot
  produce, used only to make the recursion structural.
* Error messages are structured: a resolver-raised error records the
  snapshot of the instantiation stack taken at the raise site together
  with an error kind; renderErr turns this into the message string the
  Python code builds.  Exceptions raised by user code inside a factory
  call (JError.user) and the exception raised by the caller block of the
  with statement (JError.body) carry no such path, as in Python.
* Logging is modelled as disabled (the debug-only branches are dead).
-/

/-- Parameter kinds of inspect.Parameter, as probed by _build_parameters. -/
inductive PKind
  | posOnly
  | posOrKw
  | varPos
  | kwOnly
  | varKw
deriving DecidableEq, Repr

/-- One entry of inspect.signature(factory).parameters: the name, the kind,
whether a default is declared, and the declared type when it is a callable
(identified by its factory id); annot = none models both a missing
annotation and a non-callable one. -/
structure Param where
  name : String
  kind : PKind
  hasDefault : Bool
  annot : Option Nat
deriving DecidableEq, Repr

/-- The reflective and behavioural data of one Python callable. -/
structure FactorySpec where
  fname : String
  src : String
  params : List Param
  builtin : Bool
  inspectFails : Bool
  raises : Bool
  isCM : Bool
deriving DecidableEq, Repr

/-- A runtime value: an instance allocated by a factory call (with its
object identity), a plain non-callable datum, or the resolver itself (the
reserved self binding). -/
inductive Value
  | obj (i : Nat)
  | prim (p : Nat)
  | junkieSelf
deriving DecidableEq, Repr

/-- A registry entry: callable(value) distinguishes factories from plain
instances in _build_by_instance_name. -/
inductive RegEntry
  | value (v : Value)
  | factory (fid : Nat)
deriving DecidableEq, Repr

/-- A resolution target passed to inject: a name or a factory. -/
inductive Target
  | name (n : String)
  | factory (fid : Nat)
deriving DecidableEq, Repr

/-- Observable events of a run: a factory invocation with its resolved
named arguments, the acquire step performed by enter_context, and the
release step performed when the ExitStack unwinds. -/
inductive Event
  | invoke (fid : Nat) (args : List (String × Value))
  | acquire (fid : Nat) (inst : Nat)
  | release (fid : Nat) (inst : Nat)
deriving DecidableEq, Repr

/-- The kinds of JunkieError raised by the resolver, one per raise site. -/
inductive JErrKind
  | builtinMapping (iname : Option String) (fid : Nat)
  | dependencyCycle (fid : Nat)
  | unableToFind (iname : String)
  | unableToFindParam (pname : String) (fid : Nat)
  | unableToInspect (fid : Nat)
  | noExitStack
deriving DecidableEq, Repr

/-- An exception: a JunkieError carrying the instantiation-stack snapshot
taken at the raise site and a kind, an exception raised by user code
inside a factory call, the exception raised by the caller block inside
the with statement, or fuel exhaustion (an artefact of the embedding). -/
inductive JError
  | junkie (path : List Nat) (kind : JErrKind)
  | user (fid : Nat)
  | body
  | fuel
deriving DecidableEq, Repr

/-- The buckets produced by _build_parameters: positional_params, args,
keyword_params, kwargs. -/
structure Buckets where
  pos : List (String × Value)
  args : Option Value
  kw : List (String × Value)
  kwargs : Option Value
deriving DecidableEq, Repr

/-- Python dict lookup d[k] / membership on an association list. -/
def alistLookup [DecidableEq κ] (k : κ) : List (κ × α) → Option α
  | [] => none
  | (k2, v) :: rest => if k = k2 then some v else alistLookup k rest

/-- Python dict assignment d[k] = v on an association list: an existing
key keeps its position, a new key is appended at the end. -/
def alistInsert [DecidableEq κ] (k : κ) (v : α) : List (κ × α) → List (κ × α)
  | [] => [(k, v)]
  | (k2, v2) :: rest => if k = k2 then (k, v) :: rest else (k2, v2) :: alistInsert k v rest

/-- Python dict merge: all entries of u assigned into d in order. -/
def alistUpdate [DecidableEq κ] (d u : List (κ × α)) : List (κ × α) :=
  u.foldl (fun acc kv => alistInsert kv.1 kv.2 acc) d

/-- The mutable state of one Junkie resolver object. -/
structure JunkieState where
  context : List (String × RegEntry)
  frames : List (List (String × Value))
  instStack : List Nat
  cycleSet : List Nat
  exitStacks : List (Nat × List (Nat × Nat))
  curSid : Option Nat
  nextSid : Nat
  nextId : Nat
  events : List Event
deriving DecidableEq, Repr

/-- The current scope frame, self._instances_by_name, which is always the
top of self._instances_by_name_stack. -/
def JunkieState.headFrame (s : JunkieState) : List (String × Value) :=
  s.frames.headD []

/-- Line 137: self._instances_by_name[instance_name] = instance. -/
def JunkieState.bindName (s : JunkieState) (n : String) (v : Value) : JunkieState :=
  { s with frames := alistInsert n v s.headFrame :: s.frames.tail }

def JunkieState.addEvent (s : JunkieState) (e : Event) : JunkieState :=
  { s with events := s.events ++ [e] }

/-- The registrations currently held by the ExitStack with id sid. -/
def stackRegs (sid : Nat) (s : JunkieState) : List (Nat × Nat) :=
  (alistLookup sid s.exitStacks).getD []

/-- Lines 129-134: enter_context on the instance registers its release on
the ExitStack currently referenced by self._exit_stack and performs the
acquire step; with no ExitStack set the attribute access fails. -/
def enterContext (fid inst : Nat) (s : JunkieState) : JunkieState × Except JError Unit :=
  match s.curSid with
  | none => (s, .error (.junkie s.instStack .noExitStack))
  | some sid =>
      let s1 := { s with exitStacks := alistInsert sid (stackRegs sid s ++ [(fid, inst)]) s.exitStacks }
      (s1.addEvent (.acquire fid inst), .ok ())

/-- ExitStack exit: run all registered release actions in reverse
registration order, emptying the stack. -/
def unwind (sid : Nat) (s : JunkieState) : JunkieState :=
  { s with
      exitStacks := alistInsert sid [] s.exitStacks
      events := s.events ++ ((stackRegs sid s).reverse.map fun fi => .release fi.1 fi.2) }

/-- Junkie.__init__, with an explicit start value for the object-id
allocator (Python allocates ids globally; a resolver created by extend
continues from the creating state so that distinct objects never share an
id). -/
def JunkieState.mk0 (ctx : List (String × RegEntry)) (startId : Nat) : JunkieState :=
  { context := alistInsert ("_junkie") (.value .junkieSelf) ctx
    frames := [[]]
    instStack := []
    cycleSet := []
    exitStacks := []
    curSid := none
    nextSid := 0
    nextId := startId
    events := [] }

/-- A freshly constructed resolver: Junkie(instances_and_factories). -/
def junkieInit (ctx : List (String × RegEntry)) : JunkieState :=
  JunkieState.mk0 ctx 0

/-- The names that make Junkie.extend fail: keys of the new instances
already present in self._instances_by_name or self._context. -/
def extendDups (s : JunkieState) (instances : List (String × RegEntry)) : List String :=
  (instances.map Prod.fst).filter fun k =>
    (alistLookup k s.headFrame).isSome || (alistLookup k s.context).isSome

/-- Junkie.extend (lines 48-53): fail when any new name collides with the
current frame or the registry, otherwise build a new resolver whose
registry is the merge of the already built instances of the current frame
(iteration over self reads self._instances_by_name) with the new entries. -/
def Junkie.extend (s : JunkieState) (instances : List (String × RegEntry)) :
    Except (List String) JunkieState :=
  if extendDups s instances = [] then
    .ok (JunkieState.mk0
      (alistUpdate (s.headFrame.map fun kv => (kv.1, RegEntry.value kv.2)) instances)
      s.nextId)
  else
    .error (extendDups s instances)

/-- One line of _InstantiationStack.__str__: indentation grows with the
index of the factory on the stack. -/
def renderLine (Φ : Nat → FactorySpec) (idx f : Nat) : String :=
  "\n" ++ String.join (List.replicate idx " ") ++ "-> " ++ (Φ f).fname
    ++ "() at " ++ (Φ f).src

/-- The enumerated body of _InstantiationStack.__str__, carrying the
running index that controls the indentation. -/
def renderStackFrom (Φ : Nat → FactorySpec) (idx : Nat) : List Nat → String
  | [] => ""
  | f :: rest => renderLine Φ idx f ++ renderStackFrom Φ (idx + 1) rest

/-- _InstantiationStack.__str__: one line per factory on the path, in push
order (index 0 is the outermost factory), with indentation growing with
the index. -/
def renderStack (Φ : Nat → FactorySpec) (path : List Nat) : String :=
  if path = [] then "" else renderStackFrom Φ 0 path ++ "\n"

/-- The detail part of each JunkieError message. -/
def renderKind (Φ : Nat → FactorySpec) : JErrKind → String
  | .builtinMapping iname fid =>
      "Mapping for \"" ++ iname.getD ("None") ++ "\" of builtin type \""
        ++ (Φ fid).fname ++ "\" is missing"
  | .dependencyCycle fid =>
      "Dependency cycle detected with \"" ++ (Φ fid).fname ++ "()\""
  | .unableToFind iname => "Unable to find \"" ++ iname ++ "\""
  | .unableToFindParam pname fid =>
      "Unable to find \"" ++ pname ++ "\" for \"" ++ (Φ fid).fname ++ "()\""
  | .unableToInspect fid =>
      "Unable to inspect signature for \"" ++ (Φ fid).fname ++ "()\""
  | .noExitStack => "NoneType has no attribute enter_context"

/-- The full message of an exception surfacing from the resolver: every
JunkieError message is the rendering of the recorded instantiation-stack
snapshot followed by the detail. -/
def renderErr (Φ : Nat → FactorySpec) : JError → String
  | .junkie path kind => renderStack Φ path ++ renderKind Φ kind
  | .user fid => "unhandled exception from \"" ++ (Φ fid).fname ++ "()\""
  | .body => "exception raised by the caller block"
  | .fuel => "fuel exhausted"

/-- Lines 185-204 of _build_parameters: place a resolved value into the
right bucket; OrderedDict assignment on a fresh key appends. -/
def dispatchBucket (p : Param) (v : Value) (acc : Buckets) (pf : Bool) : Buckets :=
  match p.kind with
  | .posOnly => { acc with pos := acc.pos ++ [(p.name, v)] }
  | .posOrKw =>
      if pf then { acc with kw := acc.kw ++ [(p.name, v)] }
      else { acc with pos := acc.pos ++ [(p.name, v)] }
  | .varPos => { acc with args := some v }
  | .kwOnly => { acc with kw := acc.kw ++ [(p.name, v)] }
  | .varKw => { acc with kwargs := some v }

mutual

/-- Junkie._build_instance (lines 80-89): dispatch on the target type. -/
def buildInstance (Φ : Nat → FactorySpec) (fuel : Nat) (t : Target) (s : JunkieState) :
    JunkieState × Except JError Value :=
  match fuel with
  | 0 => (s, .error .fuel)
  | n + 1 =>
      match t with
      | .name nm => buildByName Φ n nm s
      | .factory fid => buildByFactory Φ n fid none s

/-- Junkie._build_tuple (lines 71-78): build each target in order. -/
def buildTuple (Φ : Nat → FactorySpec) (fuel : Nat) (ts : List Target) (s : JunkieState) :
    JunkieState × Except JError (List Value) :=
  match ts with
  | [] => (s, .ok [])
  | t :: rest =>
      match fuel with
      | 0 => (s, .error .fuel)
      | n + 1 =>
          match buildInstance Φ n t s with
          | (s1, .error e) => (s1, .error e)
          | (s1, .ok v) =>
              match buildTuple Φ n rest s1 with
              | (s2, .error e) => (s2, .error e)
              | (s2, .ok vs) => (s2, .ok (v :: vs))

/-- Junkie._build_by_instance_name (lines 91-103): current frame first,
then the registry, where a callable entry is built as a factory bound
under this name and anything else is returned as is. -/
def buildByName (Φ : Nat → FactorySpec) (fuel : Nat) (nm : String) (s : JunkieState) :
    JunkieState × Except JError Value :=
  match alistLookup nm s.headFrame with
  | some v => (s, .ok v)
  | none =>
      match alistLookup nm s.context with
      | some (.value v) => (s, .ok v)
      | some (.factory fid) =>
          match fuel with
          | 0 => (s, .error .fuel)
          | n + 1 => buildByFactory Φ n fid (some nm) s
      | none => (s, .error (.junkie s.instStack (.unableToFind nm)))

/-- Junkie._build_by_factory_function (lines 105-142): reject builtins,
check the cycle set by factory identity, push the factory on the cycle
set and instantiation stack, resolve the parameters, invoke the factory,
enter the produced instance as a context when it has an enter attribute,
bind it when a name is given, then pop the stack and the cycle set. -/
def buildByFactory (Φ : Nat → FactorySpec) (fuel : Nat) (fid : Nat) (iname : Option String)
    (s : JunkieState) : JunkieState × Except JError Value :=
  if (Φ fid).builtin then
    (s, .error (.junkie s.instStack (.builtinMapping iname fid)))
  else if fid ∈ s.cycleSet then
    (s, .error (.junkie s.instStack (.dependencyCycle fid)))
  else
    match fuel with
    | 0 => (s, .error .fuel)
    | n + 1 =>
        let s1 := { s with cycleSet := fid :: s.cycleSet, instStack := s.instStack ++ [fid] }
        if (Φ fid).inspectFails then
          (s1, .error (.junkie s1.instStack (.unableToInspect fid)))
        else
          match buildParams Φ n fid (Φ fid).params ⟨[], none, [], none⟩ false s1 with
          | (s2, .error e) => (s2, .error e)
          | (s2, .ok bk) =>
              let s3 := s2.addEvent (.invoke fid (bk.pos ++ bk.kw))
              if (Φ fid).raises then (s3, .error (.user fid))
              else
                let inst := s3.nextId
                let s4 := { s3 with nextId := inst + 1 }
                match (if (Φ fid).isCM then enterContext fid inst s4 else (s4, .ok ())) with
                | (s5, .error e) => (s5, .error e)
                | (s5, .ok _) =>
                    let s6 := match iname with
                      | some nm => s5.bindName nm (.obj inst)
                      | none => s5
                    let s7 := { s6 with
                        instStack := s6.instStack.dropLast
                        cycleSet := s6.cycleSet.erase fid }
                    (s7, .ok (.obj inst))

/-- The loop of Junkie._build_parameters (lines 159-206) over the
signature parameters, with the positional_params_finished flag; the
inspectFails probe of lines 151-157 is handled by the caller before this
loop starts.  Branch order follows the source: a name bound in the frame
or registry is resolved by name first; unbound variadic parameters are
skipped; a declared default switches later positional-or-keyword
parameters into the keyword bucket; a callable annotation is built as a
factory bound under the parameter name; otherwise the parameter is
unresolvable. -/
def buildParams (Φ : Nat → FactorySpec) (fuel : Nat) (fid : Nat) (ps : List Param)
    (acc : Buckets) (pf : Bool) (s : JunkieState) : JunkieState × Except JError Buckets :=
  match ps with
  | [] => (s, .ok acc)
  | p :: rest =>
      if (alistLookup p.name s.headFrame).isSome || (alistLookup p.name s.context).isSome then
        match fuel with
        | 0 => (s, .error .fuel)
        | n + 1 =>
            match buildByName Φ n p.name s with
            | (s1, .error e) => (s1, .error e)
            | (s1, .ok v) => buildParams Φ n fid rest (dispatchBucket p v acc pf) pf s1
      else if p.kind = .varPos then
        match fuel with
        | 0 => (s, .error .fuel)
        | n + 1 => buildParams Φ n fid rest acc pf s
      else if p.kind = .varKw then
        match fuel with
        | 0 => (s, .error .fuel)
        | n + 1 => buildParams Φ n fid rest acc pf s
      else if p.hasDefault then
        match fuel with
        | 0 => (s, .error .fuel)
        | n + 1 => buildParams Φ n fid rest acc true s
      else
        match p.annot with
        | some j =>
            match fuel with
            | 0 => (s, .error .fuel)
            | n + 1 =>
                match buildByFactory Φ n j (some p.name) s with
                | (s1, .error e) => (s1, .error e)
                | (s1, .ok v) => buildParams Φ n fid rest (dispatchBucket p v acc pf) pf s1
        | none => (s, .error (.junkie s.instStack (.unableToFindParam p.name fid)))

end

/-- The setup and build phase of Junkie.inject (lines 59-66): create a
fresh ExitStack and make it current, push a copy of the top frame, then
build the single target or the tuple of targets. -/
def injectEnter (Φ : Nat → FactorySpec) (fuel : Nat) (targets : List Target)
    (s : JunkieState) : JunkieState × Except JError (List Value) :=
  let sid := s.nextSid
  let s0 := { s with
      nextSid := sid + 1
      exitStacks := s.exitStacks ++ [(sid, [])]
      curSid := some sid
      frames := s.headFrame :: s.frames }
  match targets with
  | [t] =>
      match buildInstance Φ fuel t s0 with
      | (s1, .error e) => (s1, .error e)
      | (s1, .ok v) => (s1, .ok [v])
  | _ => buildTuple Φ fuel targets s0

/-- The exit phase of Junkie.inject: when the build and the caller block
completed normally, lines 68-69 pop the frame stack before the with
statement closes the ExitStack; on any exception path the generator is
unwound from the yield, so only the ExitStack teardown runs and the
frame pop is skipped. -/
def injectExit (sid : Nat) (ok : Bool) (s : JunkieState) : JunkieState :=
  let s1 := if ok then { s with frames := s.frames.tail } else s
  unwind sid s1

/-- One full run of the context manager Junkie.inject around a caller
block: build the targets, run the block (bodyOk says whether it returns
normally or raises), and tear down.  The result list holds the single
value for one target and the tuple for any other arity. -/
def inject (Φ : Nat → FactorySpec) (fuel : Nat) (targets : List Target) (bodyOk : Bool)
    (s : JunkieState) : JunkieState × Except JError (List Value) :=
  match injectEnter Φ fuel targets s with
  | (s1, .error e) => (injectExit s.nextSid false s1, .error e)
  | (s1, .ok vs) =>
      if bodyOk then (injectExit s.nextSid true s1, .ok vs)
      else (injectExit s.nextSid false s1, .error .body)

/-- A factory with no noteworthy runtime behaviour. -/
def plainFactory (nm src2 : String) (ps : List Param) : FactorySpec :=
  ⟨nm, src2, ps, false, false, false, false⟩

/-- Scenario: a factory that directly requires its own registry name. -/
def ΦCycle : Nat → FactorySpec :=
  fun _ => plainFactory ("App") ("app.py:1") [⟨"app", .posOrKw, false, none⟩]

def ctxCycle : List (String × RegEntry) := [("app", .factory 0)]

/-- Scenario: factory 0 requires name b (factory 1), which requires name
a (factory 0 again): a transitive cycle. -/
def ΦCycle2 : Nat → FactorySpec
  | 0 => plainFactory ("A") ("ab.py:1") [⟨"b", .posOrKw, false, none⟩]
  | _ => plainFactory ("B") ("ab.py:5") [⟨"a", .posOrKw, false, none⟩]

def ctxCycle2 : List (String × RegEntry) := [("a", .factory 0), ("b", .factory 1)]

/-- Scenario: one parameterless factory reachable under two names. -/
def ΦShared : Nat → FactorySpec :=
  fun _ => plainFactory ("Service") ("svc.py:1") []

def ctxShared : List (String × RegEntry) := [("a", .factory 0), ("b", .factory 0)]

/-- Scenario: a parameterless factory whose call raises. -/
def ΦFaulty : Nat → FactorySpec :=
  fun _ => ⟨"faulty_handler", "bug.py:1", [], false, false, true, false⟩

/-- Scenario: two parameterless context-manager factories. -/
def ΦTear : Nat → FactorySpec
  | 0 => ⟨"f1", "tear.py:1", [], false, false, false, true⟩
  | _ => ⟨"f2", "tear.py:5", [], false, false, false, true⟩

def ctxTear : List (String × RegEntry) := [("r1", .factory 0), ("r2", .factory 1)]

/-- Scenario: two targets sharing the transitive dependency d. -/
def ΦDiamond : Nat → FactorySpec
  | 0 => plainFactory ("A") ("dia.py:1") [⟨"d", .posOrKw, false, none⟩]
  | 1 => plainFactory ("B") ("dia.py:5") [⟨"d", .posOrKw, false, none⟩]
  | _ => plainFactory ("D") ("dia.py:9") []

def ctxDiamond : List (String × RegEntry) :=
  [("a", .factory 0), ("b", .factory 1), ("d", .factory 2)]

/-- Scenario: factory 0 has a parameter with callable annotation factory
1, whose own parameter x is unresolvable. -/
def ΦChain : Nat → FactorySpec
  | 0 => plainFactory ("App") ("app.py:1") [⟨"db", .posOrKw, false, some 1⟩]
  | _ => plainFactory ("DB") ("db.py:1") [⟨"x", .posOrKw, false, none⟩]

theorem alistLookup_alistInsert [DecidableEq κ] (k k2 : κ) (v : α) (d : List (κ × α)) :
    alistLookup k2 (alistInsert k v d) = if k2 = k then some v else alistLookup k2 d := by
  induction d with
  | nil => simp [alistInsert, alistLookup]
  | cons hd t ih =>
      obtain ⟨k3, v3⟩ := hd
      by_cases hk : k = k3
      · subst hk
        by_cases hk2 : k2 = k
        · simp [alistInsert, alistLookup, hk2]
        · simp [alistInsert, alistLookup, hk2]
      · by_cases hk2 : k2 = k3
        · subst hk2
          have hne : ¬k2 = k := fun h => hk h.symm
          simp [alistInsert, alistLookup, hk, hne]
        · simp [alistInsert, alistLookup, hk, hk2, ih]

theorem alistLookup_none_iff [DecidableEq κ] (k : κ) (d : List (κ × α)) :
    alistLookup k d = none ↔ k ∉ d.map Prod.fst := by
  induction d with
  | nil => simp [alistLookup]
  | cons hd t ih =>
      obtain ⟨k2, v2⟩ := hd
      by_cases hk : k = k2
      · subst hk
        simp [alistLookup]
      · simp [alistLookup, hk, ih]

theorem alistLookup_some_mem [DecidableEq κ] {k : κ} {v : α} {d : List (κ × α)}
    (h : alistLookup k d = some v) : (k, v) ∈ d := by
  induction d with
  | nil => simp [alistLookup] at h
  | cons hd t ih =>
      obtain ⟨k2, v2⟩ := hd
      by_cases hk : k = k2
      · subst hk
        simp [alistLookup] at h
        rw [h]
        exact List.mem_cons_self _ _
      · simp only [alistLookup, if_neg hk] at h
        exact List.mem_cons_of_mem _ (ih h)

theorem alistUpdate_nil [DecidableEq κ] (d : List (κ × α)) : alistUpdate d [] = d := rfl

theorem alistUpdate_cons [DecidableEq κ] (d : List (κ × α)) (k : κ) (v : α) (u : List (κ × α)) :
    alistUpdate d ((k, v) :: u) = alistUpdate (alistInsert k v d) u := rfl

theorem alistLookup_alistUpdate_not_mem [DecidableEq κ] {k : κ} {u : List (κ × α)}
    (d : List (κ × α)) (h : k ∉ u.map Prod.fst) :
    alistLookup k (alistUpdate d u) = alistLookup k d := by
  induction u generalizing d with
  | nil => rfl
  | cons hd t ih =>
      obtain ⟨k2, v2⟩ := hd
      simp only [List.map_cons, List.mem_cons] at h
      push_neg at h
      rw [alistUpdate_cons, ih (alistInsert k2 v2 d) h.2,
        alistLookup_alistInsert, if_neg h.1]

theorem alistLookup_alistUpdate_mem [DecidableEq κ] {k : κ} {v : α} {u : List (κ × α)}
    (d : List (κ × α)) (hnd : (u.map Prod.fst).Nodup) (h : (k, v) ∈ u) :
    alistLookup k (alistUpdate d u) = some v := by
  induction u generalizing d with
  | nil => simp at h
  | cons hd t ih =>
      obtain ⟨k2, v2⟩ := hd
      simp only [List.map_cons, List.nodup_cons] at hnd
      rcases List.mem_cons.mp h with heq | hmem
      · cases heq
        rw [alistUpdate_cons, alistLookup_alistUpdate_not_mem _ hnd.1,
          alistLookup_alistInsert, if_pos rfl]
      · rw [alistUpdate_cons]
        exact ih (alistInsert k2 v2 d) hnd.2 hmem

theorem alistLookup_mapVal [DecidableEq κ] (k : κ) (f : α → β) (d : List (κ × α)) :
    alistLookup k (d.map fun kv => (kv.1, f kv.2)) = (alistLookup k d).map f := by
  induction d with
  | nil => rfl
  | cons hd t ih =>
      obtain ⟨k2, v2⟩ := hd
      by_cases hk : k = k2
      · subst hk
        simp [alistLookup]
      · simp [alistLookup, hk, ih]

/-- C8: for every resolver state and mapping of new instances, extend
raises a duplicate-binding JunkieError naming exactly the new names
already bound in the current scope frame or the registry, and when no
such collision exists it returns a resolver whose registry contains all
the new bindings. -/
theorem claim_C8_extend (s : JunkieState) (m : List (String × RegEntry))
    (hnd : (m.map Prod.fst).Nodup)
    (hwf : (alistLookup ("_junkie") s.context).isSome) :
    ((∃ k ∈ m.map Prod.fst,
        ((alistLookup k s.headFrame).isSome = true ∨ (alistLookup k s.context).isSome = true)) →
      ∃ dups, Junkie.extend s m = .error dups ∧ dups ≠ [] ∧
        ∀ k, k ∈ dups ↔ k ∈ m.map Prod.fst ∧
          ((alistLookup k s.headFrame).isSome = true ∨ (alistLookup k s.context).isSome = true)) ∧
    ((∀ k ∈ m.map Prod.fst,
        alistLookup k s.headFrame = none ∧ alistLookup k s.context = none) →
      ∃ s2, Junkie.extend s m = .ok s2 ∧
        ∀ k v, (k, v) ∈ m → alistLookup k s2.context = some v) := by
  constructor
  · rintro ⟨k, hk, hpred⟩
    have hmem : k ∈ extendDups s m := by
      simp only [extendDups, List.mem_filter, Bool.or_eq_true]
      exact ⟨hk, hpred⟩
    have hne : extendDups s m ≠ [] := List.ne_nil_of_mem hmem
    refine ⟨extendDups s m, ?_, hne, ?_⟩
    · simp [Junkie.extend, hne]
    · intro k2
      simp [extendDups, List.mem_filter, Bool.or_eq_true]
  · intro h
    have hnil : extendDups s m = [] := by
      unfold extendDups
      rw [List.filter_eq_nil_iff]
      intro k hk
      have hk2 := h k hk
      simp [hk2.1, hk2.2]
    refine ⟨JunkieState.mk0
        (alistUpdate (s.headFrame.map fun kv => (kv.1, RegEntry.value kv.2)) m) s.nextId,
      by simp [Junkie.extend, hnil], ?_⟩
    intro k v hkv
    have hk_keys : k ∈ m.map Prod.fst := List.mem_map.mpr ⟨(k, v), hkv, rfl⟩
    have hkj : ¬k = "_junkie" := by
      intro hj
      subst hj
      rw [(h _ hk_keys).2] at hwf
      simp at hwf
    simp only [JunkieState.mk0]
    rw [alistLookup_alistInsert, if_neg hkj]
    exact alistLookup_alistUpdate_mem _ hnd hkv

/-- C10: a successful extend produces a resolver whose registry is
exactly the built instances of the current frame merged with the new
entries plus the reserved self binding; every other name, in particular a
registered factory of the original registry not yet built under its
name, is absent from the new registry. -/
theorem claim_C10_extended_registry (s : JunkieState) (m : List (String × RegEntry))
    (s2 : JunkieState) (hnd : (m.map Prod.fst).Nodup) (h : Junkie.extend s m = .ok s2) :
    s2.context = alistInsert ("_junkie") (.value .junkieSelf)
        (alistUpdate (s.headFrame.map fun kv => (kv.1, RegEntry.value kv.2)) m) ∧
    (∀ k, ¬k = "_junkie" → alistLookup k s2.context =
        (match alistLookup k m with
         | some v => some v
         | none => (alistLookup k s.headFrame).map RegEntry.value)) ∧
    (∀ k, ¬k = "_junkie" → alistLookup k s.headFrame = none → alistLookup k m = none →
        alistLookup k s2.context = none) := by
  have hctx : s2.context = alistInsert ("_junkie") (.value .junkieSelf)
      (alistUpdate (s.headFrame.map fun kv => (kv.1, RegEntry.value kv.2)) m) := by
    unfold Junkie.extend at h
    split at h
    · cases h
      rfl
    · cases h
  have hlook : ∀ k, ¬k = "_junkie" → alistLookup k s2.context =
      (match alistLookup k m with
       | some v => some v
       | none => (alistLookup k s.headFrame).map RegEntry.value) := by
    intro k hk
    rw [hctx, alistLookup_alistInsert, if_neg hk]
    cases hm : alistLookup k m with
    | some v => exact alistLookup_alistUpdate_mem _ hnd (alistLookup_some_mem hm)
    | none =>
        rw [alistLookup_alistUpdate_not_mem _ ((alistLookup_none_iff _ _).mp hm)]
        exact alistLookup_mapVal k RegEntry.value s.headFrame
  refine ⟨hctx, hlook, ?_⟩
  intro k hk hf hm
  rw [hlook k hk, hm, hf]
  rfl

/-- During a build the cycle-detection set only holds factories that are
also on the instantiation stack (they are pushed and popped together). -/
def CycInv (s : JunkieState) : Prop := ∀ x ∈ s.cycleSet, x ∈ s.instStack

/-- Relation between the entry state of a build call and its outcome: a
successful call restores the cycle set and the instantiation stack; a
JunkieError outcome carries a path extending the instantiation stack of
the entry state, and a dependency-cycle error names a factory that is on
that path. -/
def ErrPathOk (s : JunkieState) (r : JunkieState × Except JError β) : Prop :=
  match r.2 with
  | .ok _ => r.1.cycleSet = s.cycleSet ∧ r.1.instStack = s.instStack
  | .error (.junkie p k) =>
      (∃ t, p = s.instStack ++ t) ∧ ∀ g, k = .dependencyCycle g → g ∈ p
  | .error _ => True

theorem ErrPathOk.seq {s s1 : JunkieState} {r : JunkieState × Except JError β}
    (hc : s1.cycleSet = s.cycleSet) (hi : s1.instStack = s.instStack)
    (h2 : ErrPathOk s1 r) : ErrPathOk s r := by
  unfold ErrPathOk at h2 ⊢
  rcases r with ⟨s2, res⟩
  match res with
  | .ok _ => exact ⟨h2.1.trans hc, h2.2.trans hi⟩
  | .error (.junkie p k) =>
      obtain ⟨⟨t, ht⟩, hg⟩ := h2
      exact ⟨⟨t, by rw [ht, hi]⟩, hg⟩
  | .error (.user _) => trivial
  | .error .body => trivial
  | .error .fuel => trivial

theorem CycInv.push {s : JunkieState} (h : CycInv s) (fid : Nat) :
    CycInv { s with cycleSet := fid :: s.cycleSet, instStack := s.instStack ++ [fid] } := by
  intro x hx
  rcases List.mem_cons.mp hx with rfl | hx2
  · exact List.mem_append_right _ (List.mem_singleton.mpr rfl)
  · exact List.mem_append_left _ (h x hx2)

theorem errPathOk_ok_self (s : JunkieState) (v : β) :
    ErrPathOk s ((s, Except.ok v) : JunkieState × Except JError β) := ⟨rfl, rfl⟩

theorem errPathOk_raise (s s2 : JunkieState) (k : JErrKind) (β : Type)
    (hk : ∀ g, k = .dependencyCycle g → g ∈ s.instStack) :
    ErrPathOk s ((s2, Except.error (.junkie s.instStack k)) : JunkieState × Except JError β) :=
  ⟨⟨[], (List.append_nil _).symm⟩, hk⟩

theorem enterContext_ok {fid inst : Nat} {s s5 : JunkieState} {u : Unit}
    (h : enterContext fid inst s = (s5, .ok u)) :
    s5.cycleSet = s.cycleSet ∧ s5.instStack = s.instStack ∧ s5.frames = s.frames ∧
      s5.context = s.context := by
  unfold enterContext at h
  split at h
  · cases h
  · cases h
    exact ⟨rfl, rfl, rfl, rfl⟩

theorem enterContext_err {fid inst : Nat} {s s5 : JunkieState} {e : JError}
    (h : enterContext fid inst s = (s5, .error e)) :
    e = .junkie s.instStack .noExitStack := by
  unfold enterContext at h
  split at h
  · cases h
    rfl
  · cases h

theorem cmStep_ok (Φ : Nat → FactorySpec) (fid : Nat) {inst : Nat} {s s5 : JunkieState}
    {u : Unit}
    (h : (if (Φ fid).isCM then enterContext fid inst s else (s, .ok ())) = (s5, .ok u)) :
    s5.cycleSet = s.cycleSet ∧ s5.instStack = s.instStack ∧ s5.frames = s.frames ∧
      s5.context = s.context := by
  split at h
  · exact enterContext_ok h
  · cases h
    exact ⟨rfl, rfl, rfl, rfl⟩

theorem cmStep_err (Φ : Nat → FactorySpec) (fid : Nat) {inst : Nat} {s s5 : JunkieState}
    {e : JError}
    (h : (if (Φ fid).isCM then enterContext fid inst s else (s, .ok ())) = (s5, .error e)) :
    e = .junkie s.instStack .noExitStack := by
  split at h
  · exact enterContext_err h
  · cases h

theorem ErrPathOk.errCast {s s1 s2 : JunkieState} {e : JError}
    (h : ErrPathOk s ((s1, Except.error e) : JunkieState × Except JError β)) :
    ErrPathOk s ((s2, Except.error e) : JunkieState × Except JError γ) := by
  unfold ErrPathOk at h ⊢
  match e with
  | .junkie p k => exact h
  | .user _ => trivial
  | .body => trivial
  | .fuel => trivial

/-- Main induction over the build recursion: from any entry state whose
cycle set is contained in its instantiation stack, a successful build
call restores cycle set and instantiation stack; a raised JunkieError
always carries a path extending the entry instantiation stack, and a
dependency-cycle error always names a factory occurring on its own
path. -/
theorem buildErrPath (Φ : Nat → FactorySpec) : ∀ fuel : Nat,
    (∀ t s, CycInv s → ErrPathOk s (buildInstance Φ fuel t s)) ∧
    (∀ ts s, CycInv s → ErrPathOk s (buildTuple Φ fuel ts s)) ∧
    (∀ nm s, CycInv s → ErrPathOk s (buildByName Φ fuel nm s)) ∧
    (∀ fid iname s, CycInv s → ErrPathOk s (buildByFactory Φ fuel fid iname s)) ∧
    (∀ fid ps acc pf s, CycInv s → ErrPathOk s (buildParams Φ fuel fid ps acc pf s)) := by
  intro fuel
  induction fuel with
  | zero =>
      refine ⟨?_, ?_, ?_, ?_, ?_⟩
      · intro t s _
        cases t <;> exact trivial
      · intro ts s _
        cases ts with
        | nil => exact errPathOk_ok_self s []
        | cons t rest => exact trivial
      · intro nm s hs
        unfold buildByName
        split
        · exact errPathOk_ok_self s _
        · split
          · exact errPathOk_ok_self s _
          · exact trivial
          · exact errPathOk_raise s s _ _ (fun g hg => JErrKind.noConfusion hg)
      · intro fid iname s hs
        unfold buildByFactory
        split
        · exact errPathOk_raise s s _ _ (fun g hg => JErrKind.noConfusion hg)
        · split
          · rename_i hmem
            refine errPathOk_raise s s _ _ (fun g hg => ?_)
            cases hg
            exact hs _ hmem
          · exact trivial
      · intro fid ps acc pf s hs
        cases ps with
        | nil => exact errPathOk_ok_self s acc
        | cons p rest =>
            unfold buildParams
            split
            · exact trivial
            · split
              · exact trivial
              · split
                · exact trivial
                · split
                  · exact trivial
                  · split
                    · exact trivial
                    · exact errPathOk_raise s s _ _ (fun g hg => JErrKind.noConfusion hg)
  | succ n ih =>
      obtain ⟨ihInst, ihTup, ihName, ihFac, ihPar⟩ := ih
      have hinvEq : ∀ (s s1 : JunkieState), CycInv s →
          s1.cycleSet = s.cycleSet → s1.instStack = s.instStack → CycInv s1 := by
        intro s s1 hs hc hi x hx
        rw [hi]
        rw [hc] at hx
        exact hs x hx
      refine ⟨?_, ?_, ?_, ?_, ?_⟩
      · -- buildInstance
        intro t s hs
        cases t with
        | name nm => exact ihName nm s hs
        | factory fid => exact ihFac fid none s hs
      · -- buildTuple
        intro ts s hs
        cases ts with
        | nil => exact errPathOk_ok_self s []
        | cons t rest =>
            simp only [buildTuple]
            split
            · rename_i s1 e h1
              have H1 := ihInst t s hs
              rw [h1] at H1
              exact H1.errCast
            · rename_i s1 v h1
              have H1 := ihInst t s hs
              rw [h1] at H1
              obtain ⟨hc1, hi1⟩ := H1
              split
              · rename_i s2 e h2
                have H2 := ihTup rest s1 (hinvEq s s1 hs hc1 hi1)
                rw [h2] at H2
                exact ErrPathOk.seq hc1 hi1 H2
              · rename_i s2 vs h2
                have H2 := ihTup rest s1 (hinvEq s s1 hs hc1 hi1)
                rw [h2] at H2
                exact ⟨H2.1.trans hc1, H2.2.trans hi1⟩
      · -- buildByName
        intro nm s hs
        unfold buildByName
        split
        · exact errPathOk_ok_self s _
        · split
          · exact errPathOk_ok_self s _
          · exact ihFac _ (some nm) s hs
          · exact errPathOk_raise s s _ _ (fun g hg => JErrKind.noConfusion hg)
      · -- buildByFactory
        intro fid iname s hs
        simp only [buildByFactory]
        split
        · exact errPathOk_raise s s _ _ (fun g hg => JErrKind.noConfusion hg)
        · split
          · rename_i hmem
            refine errPathOk_raise s s _ _ (fun g hg => ?_)
            cases hg
            exact hs _ hmem
          · split
            · exact ⟨⟨[fid], rfl⟩, fun g hg => JErrKind.noConfusion hg⟩
            · split
              · rename_i s2 e hp
                have HP := ihPar fid (Φ fid).params ⟨[], none, [], none⟩ false
                  { s with cycleSet := fid :: s.cycleSet,
                           instStack := s.instStack ++ [fid] } (CycInv.push hs fid)
                rw [hp] at HP
                unfold ErrPathOk at HP ⊢
                match e with
                | .junkie p k =>
                    obtain ⟨⟨t2, ht2⟩, hg⟩ := HP
                    exact ⟨⟨[fid] ++ t2, by rw [ht2, List.append_assoc]⟩, hg⟩
                | .user _ => trivial
                | .body => trivial
                | .fuel => trivial
              · rename_i s2 bk hp
                have HP := ihPar fid (Φ fid).params ⟨[], none, [], none⟩ false
                  { s with cycleSet := fid :: s.cycleSet,
                           instStack := s.instStack ++ [fid] } (CycInv.push hs fid)
                rw [hp] at HP
                obtain ⟨hc2, hi2⟩ := HP
                split
                · trivial
                · split
                  · rename_i s5 e hcm
                    have he := cmStep_err Φ fid hcm
                    subst he
                    refine ⟨⟨[fid], ?_⟩, fun g hg => JErrKind.noConfusion hg⟩
                    show (s2.addEvent (.invoke fid (bk.pos ++ bk.kw))).instStack
                      = s.instStack ++ [fid]
                    show s2.instStack = s.instStack ++ [fid]
                    exact hi2
                  · rename_i s5 u hcm
                    obtain ⟨hc5, hi5, _, _⟩ := cmStep_ok Φ fid hcm
                    have hc5b : s5.cycleSet = fid :: s.cycleSet := by
                      rw [hc5]
                      exact hc2
                    have hi5b : s5.instStack = s.instStack ++ [fid] := by
                      rw [hi5]
                      exact hi2
                    cases iname <;>
                      refine ⟨?_, ?_⟩ <;>
                        first
                          | (show s5.cycleSet.erase fid = s.cycleSet
                             rw [hc5b]
                             exact List.erase_cons_head fid s.cycleSet)
                          | (show s5.instStack.dropLast = s.instStack
                             rw [hi5b]
                             exact List.dropLast_concat)
      · -- buildParams
        intro fid ps acc pf s hs
        cases ps with
        | nil => exact errPathOk_ok_self s acc
        | cons p rest =>
            simp only [buildParams]
            split
            · split
              · rename_i s1 e h1
                have H1 := ihName p.name s hs
                rw [h1] at H1
                exact H1.errCast
              · rename_i s1 v h1
                have H1 := ihName p.name s hs
                rw [h1] at H1
                obtain ⟨hc1, hi1⟩ := H1
                exact ErrPathOk.seq hc1 hi1
                  (ihPar fid rest (dispatchBucket p v acc pf) pf s1 (hinvEq s s1 hs hc1 hi1))
            · split
              · exact ihPar fid rest acc pf s hs
              · split
                · exact ihPar fid rest acc pf s hs
                · split
                  · exact ihPar fid rest acc true s hs
                  · split
                    · rename_i j heq
                      split
                      · rename_i s1 e h1
                        have H1 := ihFac j (some p.name) s hs
                        rw [h1] at H1
                        exact H1.errCast
                      · rename_i s1 v h1
                        have H1 := ihFac j (some p.name) s hs
                        rw [h1] at H1
                        obtain ⟨hc1, hi1⟩ := H1
                        exact ErrPathOk.seq hc1 hi1
                          (ihPar fid rest (dispatchBucket p v acc pf) pf s1
                            (hinvEq s s1 hs hc1 hi1))
                    · exact errPathOk_raise s s _ _ (fun g hg => JErrKind.noConfusion hg)

/-- The acquisitions recorded in a list of events, in order. -/
def acqList : List Event → List (Nat × Nat)
  | [] => []
  | .acquire f i :: es => (f, i) :: acqList es
  | _ :: es => acqList es

/-- The releases recorded in a list of events, in order. -/
def relList : List Event → List (Nat × Nat)
  | [] => []
  | .release f i :: es => (f, i) :: relList es
  | _ :: es => relList es

theorem acqList_append (l1 l2 : List Event) :
    acqList (l1 ++ l2) = acqList l1 ++ acqList l2 := by
  induction l1 with
  | nil => rfl
  | cons e t ih => cases e <;> simp [acqList, ih]

theorem relList_append (l1 l2 : List Event) :
    relList (l1 ++ l2) = relList l1 ++ relList l2 := by
  induction l1 with
  | nil => rfl
  | cons e t ih => cases e <;> simp [relList, ih]

theorem relList_map_release (l : List (Nat × Nat)) :
    relList (l.map fun fi => .release fi.1 fi.2) = l := by
  induction l with
  | nil => rfl
  | cons fi t ih => simp [relList, ih]

/-- How the state may evolve during the build phase of a resolution whose
active ExitStack is sid: the registry and the current-stack reference are
untouched, no release fires, every other ExitStack is untouched, and the
registrations appended to stack sid are exactly the acquisitions of the
new events, in order. -/
def BuildEvol (sid : Nat) (s s2 : JunkieState) : Prop :=
  s2.context = s.context ∧
  s2.curSid = s.curSid ∧
  (∀ j, ¬j = sid → stackRegs j s2 = stackRegs j s) ∧
  ∃ d, s2.events = s.events ++ d ∧ relList d = [] ∧
    stackRegs sid s2 = stackRegs sid s ++ acqList d

theorem BuildEvol.ofFields {sid : Nat} {s s2 : JunkieState}
    (hctx : s2.context = s.context) (hcur : s2.curSid = s.curSid)
    (hex : s2.exitStacks = s.exitStacks) (hev : s2.events = s.events) :
    BuildEvol sid s s2 := by
  refine ⟨hctx, hcur, ?_, [], ?_, rfl, ?_⟩
  · intro j _
    unfold stackRegs
    rw [hex]
  · rw [hev, List.append_nil]
  · unfold stackRegs
    rw [hex]
    simp [acqList]

theorem BuildEvol.selfEvol (sid : Nat) (s : JunkieState) : BuildEvol sid s s :=
  BuildEvol.ofFields (Eq.refl _) (Eq.refl _) (Eq.refl _) (Eq.refl _)

theorem BuildEvol.trans {sid : Nat} {s s1 s2 : JunkieState}
    (h1 : BuildEvol sid s s1) (h2 : BuildEvol sid s1 s2) : BuildEvol sid s s2 := by
  obtain ⟨hctx1, hcur1, hoth1, d1, hev1, hrel1, hregs1⟩ := h1
  obtain ⟨hctx2, hcur2, hoth2, d2, hev2, hrel2, hregs2⟩ := h2
  refine ⟨hctx2.trans hctx1, hcur2.trans hcur1,
    fun j hj => (hoth2 j hj).trans (hoth1 j hj), d1 ++ d2, ?_, ?_, ?_⟩
  · rw [hev2, hev1, List.append_assoc]
  · rw [relList_append, hrel1, hrel2]
    rfl
  · rw [hregs2, hregs1, acqList_append, List.append_assoc]

theorem BuildEvol.invokeEvent {sid : Nat} (s : JunkieState) (fid : Nat)
    (args : List (String × Value)) :
    BuildEvol sid s (s.addEvent (.invoke fid args)) := by
  refine ⟨Eq.refl _, Eq.refl _, fun j _ => Eq.refl _, [.invoke fid args], Eq.refl _, Eq.refl _, ?_⟩
  simp [acqList, stackRegs, JunkieState.addEvent]

theorem stackRegs_insert (j sid : Nat) (v : List (Nat × Nat)) (s : JunkieState) :
    stackRegs j { s with exitStacks := alistInsert sid v s.exitStacks } =
      if j = sid then v else stackRegs j s := by
  unfold stackRegs
  rw [alistLookup_alistInsert]
  split <;> rfl

theorem enterContext_evol {sid fid inst : Nat} {s s5 : JunkieState} {u : Unit}
    (hcur : s.curSid = some sid) (h : enterContext fid inst s = (s5, .ok u)) :
    BuildEvol sid s s5 := by
  unfold enterContext at h
  split at h
  · cases h
  · rename_i sid2 heq
    rw [hcur] at heq
    injection heq with heq2
    subst heq2
    cases h
    refine ⟨Eq.refl _, Eq.refl _, ?_, [.acquire fid inst], Eq.refl _, Eq.refl _, ?_⟩
    · intro j hj
      have := stackRegs_insert j sid (stackRegs sid s ++ [(fid, inst)]) s
      rw [if_neg hj] at this
      exact this
    · have := stackRegs_insert sid sid (stackRegs sid s ++ [(fid, inst)]) s
      rw [if_pos (Eq.refl _)] at this
      exact this.trans (by simp [acqList])

theorem enterContext_err_state {fid inst : Nat} {s s5 : JunkieState} {e : JError}
    (h : enterContext fid inst s = (s5, .error e)) : s5 = s := by
  unfold enterContext at h
  split at h
  · cases h
    rfl
  · cases h

theorem cmStep_evol (Φ : Nat → FactorySpec) (fid : Nat) {inst sid : Nat}
    {s s5 : JunkieState} {u : Unit}
    (hcur : s.curSid = some sid)
    (h : (if (Φ fid).isCM then enterContext fid inst s else (s, .ok ())) = (s5, .ok u)) :
    BuildEvol sid s s5 := by
  split at h
  · exact enterContext_evol hcur h
  · cases h
    exact BuildEvol.selfEvol sid s

theorem cmStep_err_state (Φ : Nat → FactorySpec) (fid : Nat) {inst : Nat}
    {s s5 : JunkieState} {e : JError}
    (h : (if (Φ fid).isCM then enterContext fid inst s else (s, .ok ())) = (s5, .error e)) :
    s5 = s := by
  split at h
  · exact enterContext_err_state h
  · cases h

/-- Second induction over the build recursion: during a build under the
active ExitStack sid, the state evolves only by appending events and by
registering each acquisition on stack sid, never firing a release and
never touching the registry, the current-stack reference or any other
ExitStack. -/
theorem buildEvol (Φ : Nat → FactorySpec) (sid : Nat) : ∀ fuel : Nat,
    (∀ t s, s.curSid = some sid → BuildEvol sid s (buildInstance Φ fuel t s).1) ∧
    (∀ ts s, s.curSid = some sid → BuildEvol sid s (buildTuple Φ fuel ts s).1) ∧
    (∀ nm s, s.curSid = some sid → BuildEvol sid s (buildByName Φ fuel nm s).1) ∧
    (∀ fid iname s, s.curSid = some sid → BuildEvol sid s (buildByFactory Φ fuel fid iname s).1) ∧
    (∀ fid ps acc pf s, s.curSid = some sid →
      BuildEvol sid s (buildParams Φ fuel fid ps acc pf s).1) := by
  intro fuel
  induction fuel with
  | zero =>
      refine ⟨?_, ?_, ?_, ?_, ?_⟩
      · intro t s _
        cases t <;> exact BuildEvol.selfEvol sid s
      · intro ts s _
        cases ts <;> exact BuildEvol.selfEvol sid s
      · intro nm s _
        unfold buildByName
        split
        · exact BuildEvol.selfEvol sid s
        · split <;> exact BuildEvol.selfEvol sid s
      · intro fid iname s _
        unfold buildByFactory
        split
        · exact BuildEvol.selfEvol sid s
        · split <;> exact BuildEvol.selfEvol sid s
      · intro fid ps acc pf s _
        cases ps with
        | nil => exact BuildEvol.selfEvol sid s
        | cons p rest =>
            unfold buildParams
            split
            · exact BuildEvol.selfEvol sid s
            · split
              · exact BuildEvol.selfEvol sid s
              · split
                · exact BuildEvol.selfEvol sid s
                · split
                  · exact BuildEvol.selfEvol sid s
                  · split <;> exact BuildEvol.selfEvol sid s
  | succ n ih =>
      obtain ⟨ihInst, ihTup, ihName, ihFac, ihPar⟩ := ih
      refine ⟨?_, ?_, ?_, ?_, ?_⟩
      · intro t s hcur
        cases t with
        | name nm => exact ihName nm s hcur
        | factory fid => exact ihFac fid none s hcur
      · intro ts s hcur
        cases ts with
        | nil => exact BuildEvol.selfEvol sid s
        | cons t rest =>
            simp only [buildTuple]
            split
            · rename_i s1 e h1
              have H1 := ihInst t s hcur
              rw [h1] at H1
              exact H1
            · rename_i s1 v h1
              have H1 := ihInst t s hcur
              rw [h1] at H1
              have hcur1 : s1.curSid = some sid := H1.2.1.trans hcur
              split
              · rename_i s2 e h2
                have H2 := ihTup rest s1 hcur1
                rw [h2] at H2
                exact H1.trans H2
              · rename_i s2 vs h2
                have H2 := ihTup rest s1 hcur1
                rw [h2] at H2
                exact H1.trans H2
      · intro nm s hcur
        unfold buildByName
        split
        · exact BuildEvol.selfEvol sid s
        · split
          · exact BuildEvol.selfEvol sid s
          · exact ihFac _ (some nm) s hcur
          · exact BuildEvol.selfEvol sid s
      · intro fid iname s hcur
        simp only [buildByFactory]
        split
        · exact BuildEvol.selfEvol sid s
        · split
          · exact BuildEvol.selfEvol sid s
          · have hstep1 : BuildEvol sid s
                { s with cycleSet := fid :: s.cycleSet, instStack := s.instStack ++ [fid] } :=
              BuildEvol.ofFields (Eq.refl _) (Eq.refl _) (Eq.refl _) (Eq.refl _)
            split
            · exact hstep1
            · split
              · rename_i s2 e hp
                have HP := ihPar fid (Φ fid).params ⟨[], none, [], none⟩ false
                  { s with cycleSet := fid :: s.cycleSet,
                           instStack := s.instStack ++ [fid] } hcur
                rw [hp] at HP
                exact hstep1.trans HP
              · rename_i s2 bk hp
                have HP := ihPar fid (Φ fid).params ⟨[], none, [], none⟩ false
                  { s with cycleSet := fid :: s.cycleSet,
                           instStack := s.instStack ++ [fid] } hcur
                rw [hp] at HP
                have hEvol2 : BuildEvol sid s s2 := hstep1.trans HP
                have hcur2 : s2.curSid = some sid := hEvol2.2.1.trans hcur
                have hEvol3 : BuildEvol sid s (s2.addEvent (.invoke fid (bk.pos ++ bk.kw))) :=
                  hEvol2.trans (BuildEvol.invokeEvent s2 fid (bk.pos ++ bk.kw))
                split
                · exact hEvol3
                · have hEvol4 : BuildEvol sid s
                      { s2.addEvent (.invoke fid (bk.pos ++ bk.kw)) with
                          nextId := (s2.addEvent (.invoke fid (bk.pos ++ bk.kw))).nextId + 1 } :=
                    hEvol3.trans (BuildEvol.ofFields (Eq.refl _) (Eq.refl _) (Eq.refl _) (Eq.refl _))
                  split
                  · rename_i s5 e hcm
                    rw [cmStep_err_state Φ fid hcm]
                    exact hEvol4
                  · rename_i s5 u hcm
                    have hEvol5 : BuildEvol sid s s5 :=
                      hEvol4.trans (cmStep_evol Φ fid (hEvol4.2.1.trans hcur) hcm)
                    have hbindEvol : BuildEvol sid s5
                        (match iname with
                         | some nm => s5.bindName nm
                             (.obj (s2.addEvent (.invoke fid (bk.pos ++ bk.kw))).nextId)
                         | none => s5) := by
                      cases iname with
                      | none => exact BuildEvol.selfEvol sid s5
                      | some nm =>
                          exact BuildEvol.ofFields (Eq.refl _) (Eq.refl _) (Eq.refl _) (Eq.refl _)
                    exact (hEvol5.trans hbindEvol).trans
                      (BuildEvol.ofFields (Eq.refl _) (Eq.refl _) (Eq.refl _) (Eq.refl _))
      · intro fid ps acc pf s hcur
        cases ps with
        | nil => exact BuildEvol.selfEvol sid s
        | cons p rest =>
            simp only [buildParams]
            split
            · split
              · rename_i s1 e h1
                have H1 := ihName p.name s hcur
                rw [h1] at H1
                exact H1
              · rename_i s1 v h1
                have H1 := ihName p.name s hcur
                rw [h1] at H1
                exact H1.trans (ihPar fid rest (dispatchBucket p v acc pf) pf s1
                  (H1.2.1.trans hcur))
            · split
              · exact ihPar fid rest acc pf s hcur
              · split
                · exact ihPar fid rest acc pf s hcur
                · split
                  · exact ihPar fid rest acc true s hcur
                  · split
                    · rename_i j heq
                      split
                      · rename_i s1 e h1
                        have H1 := ihFac j (some p.name) s hcur
                        rw [h1] at H1
                        exact H1
                      · rename_i s1 v h1
                        have H1 := ihFac j (some p.name) s hcur
                        rw [h1] at H1
                        exact H1.trans (ihPar fid rest (dispatchBucket p v acc pf) pf s1
                          (H1.2.1.trans hcur))
                    · exact BuildEvol.selfEvol sid s

theorem alistLookup_append [DecidableEq κ] (k : κ) (d1 d2 : List (κ × α)) :
    alistLookup k (d1 ++ d2) =
      (match alistLookup k d1 with
       | some v => some v
       | none => alistLookup k d2) := by
  induction d1 with
  | nil => rfl
  | cons hd t ih =>
      obtain ⟨k2, v2⟩ := hd
      by_cases hk : k = k2
      · subst hk
        simp [alistLookup]
      · simp [alistLookup, hk, ih]

theorem injectEnter_evol (Φ : Nat → FactorySpec) (fuel : Nat) (targets : List Target)
    (s : JunkieState) :
    BuildEvol s.nextSid
      { s with nextSid := s.nextSid + 1,
               exitStacks := s.exitStacks ++ [(s.nextSid, [])],
               curSid := some s.nextSid,
               frames := s.headFrame :: s.frames } (injectEnter Φ fuel targets s).1 := by
  unfold injectEnter
  split
  · rename_i t
    rcases h1 : buildInstance Φ fuel t
        { s with nextSid := s.nextSid + 1,
                 exitStacks := s.exitStacks ++ [(s.nextSid, [])],
                 curSid := some s.nextSid,
                 frames := s.headFrame :: s.frames } with ⟨s1, res1⟩
    have H := (buildEvol Φ s.nextSid fuel).1 t
        { s with nextSid := s.nextSid + 1,
                 exitStacks := s.exitStacks ++ [(s.nextSid, [])],
                 curSid := some s.nextSid,
                 frames := s.headFrame :: s.frames } (Eq.refl _)
    rw [h1] at H
    cases res1 <;> simp only [h1] <;> exact H
  · exact (buildEvol Φ s.nextSid fuel).2.1 targets
      { s with nextSid := s.nextSid + 1,
               exitStacks := s.exitStacks ++ [(s.nextSid, [])],
               curSid := some s.nextSid,
               frames := s.headFrame :: s.frames } (Eq.refl _)

theorem injectEnter_props (Φ : Nat → FactorySpec) (fuel : Nat) (targets : List Target)
    (s : JunkieState) (hfree : alistLookup s.nextSid s.exitStacks = none) :
    ∃ d, (injectEnter Φ fuel targets s).1.events = s.events ++ d ∧ relList d = [] ∧
      stackRegs s.nextSid (injectEnter Φ fuel targets s).1 = acqList d ∧
      (injectEnter Φ fuel targets s).1.context = s.context := by
  have hregs0 : stackRegs s.nextSid
      { s with nextSid := s.nextSid + 1,
               exitStacks := s.exitStacks ++ [(s.nextSid, [])],
               curSid := some s.nextSid,
               frames := s.headFrame :: s.frames } = [] := by
    unfold stackRegs
    show (alistLookup s.nextSid (s.exitStacks ++ [(s.nextSid, [])])).getD [] = []
    rw [alistLookup_append, hfree]
    simp [alistLookup]
  have hbe := injectEnter_evol Φ fuel targets s
  obtain ⟨hctx, _, _, d, hev, hrel, hregs⟩ := hbe
  refine ⟨d, ?_, hrel, ?_, ?_⟩
  · exact hev
  · rw [hregs, hregs0]
    rfl
  · exact hctx

theorem injectExit_events (sid : Nat) (ok : Bool) (s : JunkieState) :
    (injectExit sid ok s).events =
      s.events ++ ((stackRegs sid s).reverse.map fun fi => Event.release fi.1 fi.2) := by
  unfold injectExit unwind
  split <;> rfl

theorem injectExit_context (sid : Nat) (ok : Bool) (s : JunkieState) :
    (injectExit sid ok s).context = s.context := by
  unfold injectExit unwind
  split <;> rfl

/-- C2: on every exit path of one inject scope, normal completion and
caller-block exception alike, the events appended by the whole call are
the build and body events d, in which no release occurs, followed by
exactly one release per acquisition of d, in reverse acquisition
order. -/
theorem claim_C2_teardown (Φ : Nat → FactorySpec) (fuel : Nat) (targets : List Target)
    (bodyOk : Bool) (s : JunkieState)
    (hfree : alistLookup s.nextSid s.exitStacks = none) :
    ∃ d, (inject Φ fuel targets bodyOk s).1.events
        = s.events ++ d ++ ((acqList d).reverse.map fun fi => Event.release fi.1 fi.2) ∧
      relList d = [] ∧
      relList ((acqList d).reverse.map fun fi => Event.release fi.1 fi.2) =
        (acqList d).reverse := by
  obtain ⟨d, hev, hrel, hregs, _⟩ := injectEnter_props Φ fuel targets s hfree
  refine ⟨d, ?_, hrel, relList_map_release _⟩
  unfold inject
  rcases he : injectEnter Φ fuel targets s with ⟨s1, res⟩
  rw [he] at hev hregs
  cases res with
  | error e =>
      show (injectExit s.nextSid false s1).events = _
      rw [injectExit_events, hev, hregs, List.append_assoc]
  | ok vs =>
      cases bodyOk with
      | true =>
          show (injectExit s.nextSid true s1).events = _
          rw [injectExit_events, hev, hregs, List.append_assoc]
      | false =>
          show (injectExit s.nextSid false s1).events = _
          rw [injectExit_events, hev, hregs, List.append_assoc]

theorem claim_C2_teardown_witness :
    alistLookup (junkieInit ctxTear).nextSid (junkieInit ctxTear).exitStacks = none ∧
    (∃ d, (inject ΦTear 20 [.name ("r1"), .name ("r2")] false (junkieInit ctxTear)).1.events
        = (junkieInit ctxTear).events ++ d
          ++ ((acqList d).reverse.map fun fi => Event.release fi.1 fi.2) ∧
      relList d = [] ∧
      relList ((acqList d).reverse.map fun fi => Event.release fi.1 fi.2) =
        (acqList d).reverse) ∧
    (inject ΦTear 20 [.name ("r1"), .name ("r2")] false (junkieInit ctxTear)).1.events
      = [.invoke 0 [], .acquire 0 0, .invoke 1 [], .acquire 1 1,
         .release 1 1, .release 0 0] :=
  ⟨rfl, claim_C2_teardown ΦTear 20 [.name ("r1"), .name ("r2")] false (junkieInit ctxTear) rfl,
   rfl⟩

theorem injectEnter_err {Φ : Nat → FactorySpec} {fuel : Nat} {targets : List Target}
    {s s1 : JunkieState} {p : List Nat} {k : JErrKind} (hs : CycInv s)
    (h : injectEnter Φ fuel targets s = (s1, .error (.junkie p k))) :
    (∃ t, p = s.instStack ++ t) ∧ ∀ g, k = .dependencyCycle g → g ∈ p := by
  unfold injectEnter at h
  split at h
  · rename_i t
    dsimp only at h
    split at h
    · rename_i s1b e heq
      injection h with h1 h2
      injection h2 with h3
      subst h3
      have H := (buildErrPath Φ fuel).1 t
          { s with nextSid := s.nextSid + 1,
                   exitStacks := s.exitStacks ++ [(s.nextSid, [])],
                   curSid := some s.nextSid,
                   frames := s.headFrame :: s.frames } hs
      rw [heq] at H
      exact H
    · rename_i s1b v heq
      injection h with h1 h2
      exact Except.noConfusion h2
  · have H := (buildErrPath Φ fuel).2.1 targets
        { s with nextSid := s.nextSid + 1,
                 exitStacks := s.exitStacks ++ [(s.nextSid, [])],
                 curSid := some s.nextSid,
                 frames := s.headFrame :: s.frames } hs
    rw [h] at H
    exact H

/-- C9: the reserved name is always bound: any resolver construction
binds it to the resolver itself in the registry, resolving it returns the
resolver object, extending with it always fails naming it among the
duplicates, and no resolution call ever changes the registry. -/
theorem claim_C9_reserved_self (Φ : Nat → FactorySpec) :
    (∀ ctx startId, alistLookup ("_junkie") (JunkieState.mk0 ctx startId).context
        = some (.value .junkieSelf)) ∧
    (∀ fuel s, alistLookup ("_junkie") s.headFrame = none →
      alistLookup ("_junkie") s.context = some (.value .junkieSelf) →
      buildByName Φ fuel ("_junkie") s = (s, .ok .junkieSelf)) ∧
    (∀ s m, (alistLookup ("_junkie") s.context).isSome →
      ("_junkie" : String) ∈ m.map Prod.fst →
      ∃ dups, Junkie.extend s m = .error dups ∧ ("_junkie" : String) ∈ dups) ∧
    (∀ fuel ts bodyOk s, (inject Φ fuel ts bodyOk s).1.context = s.context) := by
  refine ⟨?_, ?_, ?_, ?_⟩
  · intro ctx startId
    show alistLookup ("_junkie") (alistInsert ("_junkie") (.value .junkieSelf) ctx)
      = some (.value .junkieSelf)
    rw [alistLookup_alistInsert, if_pos (Eq.refl _)]
  · intro fuel s h1 h2
    unfold buildByName
    rw [h1, h2]
  · intro s m hwf hk
    have hmem : ("_junkie" : String) ∈ extendDups s m := by
      simp only [extendDups, List.mem_filter, Bool.or_eq_true]
      exact ⟨hk, Or.inr hwf⟩
    exact ⟨extendDups s m,
      by simp [Junkie.extend, List.ne_nil_of_mem hmem], hmem⟩
  · intro fuel ts bodyOk s
    unfold inject
    rcases he : injectEnter Φ fuel ts s with ⟨s1, res⟩
    have hc : s1.context = s.context := by
      have H := (injectEnter_evol Φ fuel ts s).1
      rw [he] at H
      exact H
    cases res with
    | error e =>
        show (injectExit s.nextSid false s1).context = s.context
        rw [injectExit_context]
        exact hc
    | ok vs =>
        cases bodyOk with
        | true =>
            show (injectExit s.nextSid true s1).context = s.context
            rw [injectExit_context]
            exact hc
        | false =>
            show (injectExit s.nextSid false s1).context = s.context
            rw [injectExit_context]
            exact hc

theorem claim_C9_reserved_self_witness :
    alistLookup ("_junkie") (junkieInit ctxShared).context = some (.value .junkieSelf) ∧
    buildByName ΦShared 5 ("_junkie") (junkieInit ctxShared)
      = (junkieInit ctxShared, .ok .junkieSelf) ∧
    (∃ dups, Junkie.extend (junkieInit ctxShared) [("_junkie", .value (.prim 0))]
        = .error dups ∧ ("_junkie" : String) ∈ dups) ∧
    (inject ΦShared 9 [.name ("a")] true (junkieInit ctxShared)).1.context
      = (junkieInit ctxShared).context :=
  ⟨(claim_C9_reserved_self ΦShared).1 ctxShared 0,
   (claim_C9_reserved_self ΦShared).2.1 5 (junkieInit ctxShared) rfl rfl,
   (claim_C9_reserved_self ΦShared).2.2.1 (junkieInit ctxShared)
     [("_junkie", .value (.prim 0))] (by decide) (by decide),
   (claim_C9_reserved_self ΦShared).2.2.2 9 [.name ("a")] true (junkieInit ctxShared)⟩

/-- C1: a dependency-cycle JunkieError always names a factory that occurs
on the reported path, so the message lists that factory twice; a direct
and a transitive self-request both fail with the dependency-cycle error,
with the same bounded path however much fuel the recursion is given; the
check is keyed on factory identity, so one factory registered under two
names builds twice sequentially without raising. -/
theorem claim_C1_dependency_cycle (Φ : Nat → FactorySpec) :
    (∀ fuel targets bodyOk s s2 p g, CycInv s →
      inject Φ fuel targets bodyOk s = (s2, .error (.junkie p (.dependencyCycle g))) →
      g ∈ p) ∧
    (∀ n, (inject ΦCycle (n + 6) [.factory 0] true (junkieInit ctxCycle)).2
        = .error (.junkie [0] (.dependencyCycle 0))) ∧
    (∀ n, (inject ΦCycle2 (n + 9) [.name ("a")] true (junkieInit ctxCycle2)).2
        = .error (.junkie [0, 1] (.dependencyCycle 0))) ∧
    (∀ n, (inject ΦShared (n + 6) [.name ("a"), .name ("b")] true (junkieInit ctxShared)).2
        = .ok [.obj 0, .obj 1]) := by
  refine ⟨?_, fun n => rfl, fun n => rfl, fun n => rfl⟩
  intro fuel targets bodyOk s s2 p g hs h
  unfold inject at h
  rcases he : injectEnter Φ fuel targets s with ⟨s1, res⟩
  rw [he] at h
  cases res with
  | error e =>
      injection h with h1 h2
      injection h2 with h3
      subst h3
      exact (injectEnter_err hs he).2 g (Eq.refl _)
  | ok vs =>
      cases bodyOk with
      | true =>
          injection h with h1 h2
          exact Except.noConfusion h2
      | false =>
          injection h with h1 h2
          injection h2 with h3
          exact JError.noConfusion h3

theorem claim_C1_dependency_cycle_witness :
    CycInv (junkieInit ctxCycle) ∧ (0 : Nat) ∈ [0] := by
  have hcyc : CycInv (junkieInit ctxCycle) := fun x hx => absurd hx (List.not_mem_nil x)
  refine ⟨hcyc, ?_⟩
  exact (claim_C1_dependency_cycle ΦCycle).1 (0 + 6) [.factory 0] true (junkieInit ctxCycle)
    (inject ΦCycle (0 + 6) [.factory 0] true (junkieInit ctxCycle)).1 [0] 0 hcyc
    (Prod.ext rfl ((claim_C1_dependency_cycle ΦCycle).2.1 0))

/-- C7 counterexample: in a two-level failure the reported path is
outermost factory first: factory 1 (the innermost, most specific factory,
the one the error detail names) is listed last, not first, and the
exception raised by a factory body surfaces with no path at all. -/
theorem claim_C7_counterexample :
    (inject ΦChain 9 [.factory 0] true (junkieInit [])).2
        = .error (.junkie [0, 1] (.unableToFindParam ("x") 1)) ∧
    ([0, 1] : List Nat).head? = some 0 ∧
    ([0, 1] : List Nat).getLast? = some 1 ∧
    (0 : Nat) ≠ 1 ∧
    renderErr ΦChain (.junkie [0, 1] (.unableToFindParam ("x") 1))
      = "\n-> App() at app.py:1\n -> DB() at db.py:1\nUnable to find \"x\" for \"DB()\"" ∧
    (inject ΦFaulty 9 [.factory 0] true (junkieInit [])).2 = .error (.user 0) :=
  ⟨rfl, rfl, rfl, by decide, rfl, rfl⟩

/-- C7 amended: every JunkieError surfacing from a resolution carries the
instantiation path current at the raise site (it extends the entry
instantiation stack), its message renders that path before the detail
text, and the path is rendered in push order: the outermost factory
first, the most specific factory last. -/
theorem claim_C7_amended (Φ : Nat → FactorySpec) :
    (∀ fuel targets bodyOk s s2 p k, CycInv s →
      inject Φ fuel targets bodyOk s = (s2, .error (.junkie p k)) →
      ∃ t, p = s.instStack ++ t) ∧
    (∀ p k, renderErr Φ (.junkie p k) = renderStack Φ p ++ renderKind Φ k) ∧
    (∀ idx f rest, renderStackFrom Φ idx (f :: rest)
        = renderLine Φ idx f ++ renderStackFrom Φ (idx + 1) rest) ∧
    (∀ f rest, ∃ tail, renderStack Φ (f :: rest) = renderLine Φ 0 f ++ tail) := by
  refine ⟨?_, fun p k => rfl, fun idx f rest => rfl, ?_⟩
  · intro fuel targets bodyOk s s2 p k hs h
    unfold inject at h
    rcases he : injectEnter Φ fuel targets s with ⟨s1, res⟩
    rw [he] at h
    cases res with
    | error e =>
        injection h with h1 h2
        injection h2 with h3
        subst h3
        exact (injectEnter_err hs he).1
    | ok vs =>
        cases bodyOk with
        | true =>
            injection h with h1 h2
            exact Except.noConfusion h2
        | false =>
            injection h with h1 h2
            injection h2 with h3
            exact JError.noConfusion h3
  · intro f rest
    refine ⟨renderStackFrom Φ 1 rest ++ "\n", ?_⟩
    show (if (f :: rest : List Nat) = [] then "" else renderStackFrom Φ 0 (f :: rest) ++ "\n")
      = renderLine Φ 0 f ++ (renderStackFrom Φ 1 rest ++ "\n")
    rw [if_neg (by simp)]
    show (renderLine Φ 0 f ++ renderStackFrom Φ 1 rest) ++ "\n"
      = renderLine Φ 0 f ++ (renderStackFrom Φ 1 rest ++ "\n")
    rw [String.append_assoc]

theorem claim_C7_amended_witness :
    CycInv (junkieInit []) ∧
    (∃ t, ([0, 1] : List Nat) = (junkieInit []).instStack ++ t) ∧
    (∃ tail, renderStack ΦChain [0, 1] = renderLine ΦChain 0 0 ++ tail) :=
  ⟨fun x hx => absurd hx (List.not_mem_nil x),
   (claim_C7_amended ΦChain).1 9 [.factory 0] true (junkieInit [])
     (inject ΦChain 9 [.factory 0] true (junkieInit [])).1 [0, 1]
     (.unableToFindParam ("x") 1) (fun x hx => absurd hx (List.not_mem_nil x))
     (Prod.ext rfl rfl),
   (claim_C7_amended ΦChain).2.2.2 0 [1]⟩

theorem buildByFactory_plain (Φ : Nat → FactorySpec) (fid : Nat) (nm : String)
    (hp : (Φ fid).params = []) (hb : (Φ fid).builtin = false)
    (hi : (Φ fid).inspectFails = false) (hr : (Φ fid).raises = false)
    (hcm : (Φ fid).isCM = false) (n : Nat) (s : JunkieState) (hm : fid ∉ s.cycleSet) :
    buildByFactory Φ (n + 1) fid (some nm) s
      = ({ s with frames := alistInsert nm (.obj s.nextId) s.headFrame :: s.frames.tail,
                  nextId := s.nextId + 1,
                  events := s.events ++ [.invoke fid []] }, .ok (.obj s.nextId)) := by
  unfold buildByFactory
  rw [if_neg (by rw [hb]; exact Bool.false_ne_true), if_neg hm]
  dsimp only
  rw [if_neg (by rw [hi]; exact Bool.false_ne_true), hp]
  simp only [buildParams]
  rw [if_neg (by rw [hr]; exact Bool.false_ne_true),
    if_neg (by rw [hcm]; exact Bool.false_ne_true)]
  dsimp only [JunkieState.addEvent, JunkieState.bindName, JunkieState.headFrame]
  rw [List.erase_cons_head, List.dropLast_concat]
  rfl

theorem buildInstance_service (Φ : Nat → FactorySpec) (fid : Nat)
    (hp : (Φ fid).params = []) (hb : (Φ fid).builtin = false)
    (hi : (Φ fid).inspectFails = false) (hr : (Φ fid).raises = false)
    (hcm : (Φ fid).isCM = false) (fl : Nat) (s : JunkieState)
    (hfr : alistLookup ("service") s.headFrame = none)
    (hctx : alistLookup ("service") s.context = some (.factory fid))
    (hm : fid ∉ s.cycleSet) :
    buildInstance Φ (fl + 4) (.name ("service")) s
      = ({ s with frames := alistInsert ("service") (.obj s.nextId) s.headFrame
                    :: s.frames.tail,
                  nextId := s.nextId + 1,
                  events := s.events ++ [.invoke fid []] }, .ok (.obj s.nextId)) := by
  show buildByName Φ (fl + 3) ("service") s = _
  unfold buildByName
  rw [hfr, hctx]
  show buildByFactory Φ (fl + 2) fid (some ("service")) s = _
  exact buildByFactory_plain Φ fid ("service") hp hb hi hr hcm (fl + 1) s hm

theorem injectEnter_service (Φ : Nat → FactorySpec) (fid : Nat)
    (hp : (Φ fid).params = []) (hb : (Φ fid).builtin = false)
    (hi : (Φ fid).inspectFails = false) (hr : (Φ fid).raises = false)
    (hcm : (Φ fid).isCM = false) (fl : Nat) (s : JunkieState)
    (hfr : alistLookup ("service") s.headFrame = none)
    (hctx : alistLookup ("service") s.context = some (.factory fid))
    (hm : fid ∉ s.cycleSet) :
    injectEnter Φ (fl + 4) [.name ("service")] s
      = ({ s with nextSid := s.nextSid + 1,
                  exitStacks := s.exitStacks ++ [(s.nextSid, [])],
                  curSid := some s.nextSid,
                  frames := alistInsert ("service") (.obj s.nextId) s.headFrame :: s.frames,
                  nextId := s.nextId + 1,
                  events := s.events ++ [.invoke fid []] }, .ok [.obj s.nextId]) := by
  unfold injectEnter
  dsimp only
  rw [buildInstance_service Φ fid hp hb hi hr hcm fl
    { s with nextSid := s.nextSid + 1,
             exitStacks := s.exitStacks ++ [(s.nextSid, [])],
             curSid := some s.nextSid,
             frames := s.headFrame :: s.frames } hfr hctx hm]
  rfl

/-- C4 counterexample: a parameterless factory passed directly as the
resolution target is bound under no name, so a second resolve of the same
factory within the still-open scope calls it again and returns a
different instance, not the identical one. -/
theorem claim_C4_counterexample :
    (injectEnter ΦShared 9 [.factory 0] (junkieInit [])).2 = .ok [.obj 0] ∧
    (injectEnter ΦShared 9 [.factory 0]
        (injectEnter ΦShared 9 [.factory 0] (junkieInit [])).1).2 = .ok [.obj 1] ∧
    ¬(Value.obj 0 = Value.obj 1) :=
  ⟨rfl, rfl, by decide⟩

/-- C4 amended: for every parameterless factory registered under a name,
repeated resolution of that name within the same open scope returns the
identical instance, and resolving the name again after the scope has
fully closed and reopened yields a new instance; a factory passed
directly as the target is rebuilt on every resolution (see the
counterexample). -/
theorem claim_C4_amended (Φ : Nat → FactorySpec) (fid : Nat)
    (hp : (Φ fid).params = []) (hb : (Φ fid).builtin = false)
    (hi : (Φ fid).inspectFails = false) (hr : (Φ fid).raises = false)
    (hcm : (Φ fid).isCM = false) (n m k : Nat) :
    (injectEnter Φ (n + 4) [.name ("service")]
        (junkieInit [("service", .factory fid)])).2 = .ok [.obj 0] ∧
    (injectEnter Φ (m + 2) [.name ("service")]
        (injectEnter Φ (n + 4) [.name ("service")]
          (junkieInit [("service", .factory fid)])).1).2 = .ok [.obj 0] ∧
    (injectEnter Φ (k + 4) [.name ("service")]
        (injectExit 0 true (injectExit 1 true
          (injectEnter Φ (m + 2) [.name ("service")]
            (injectEnter Φ (n + 4) [.name ("service")]
              (junkieInit [("service", .factory fid)])).1).1))).2 = .ok [.obj 1] ∧
    ¬(Value.obj 0 = Value.obj 1) := by
  have hrw := injectEnter_service Φ fid hp hb hi hr hcm n
    (junkieInit [("service", .factory fid)]) rfl rfl (List.not_mem_nil fid)
  refine ⟨?_, ?_, ?_, by decide⟩
  · rw [hrw]
    rfl
  · rw [hrw]
    rfl
  · rw [hrw]
    show (injectEnter Φ (k + 4) [.name ("service")]
      { context := [("service", .factory fid), ("_junkie", .value .junkieSelf)],
        frames := [[]], instStack := [], cycleSet := [],
        exitStacks := [(0, []), (1, [])], curSid := some 1, nextSid := 2,
        nextId := 1, events := [.invoke fid []] }).2 = .ok [.obj 1]
    rw [injectEnter_service Φ fid hp hb hi hr hcm k
      { context := [("service", .factory fid), ("_junkie", .value .junkieSelf)],
        frames := [[]], instStack := [], cycleSet := [],
        exitStacks := [(0, []), (1, [])], curSid := some 1, nextSid := 2,
        nextId := 1, events := [.invoke fid []] } rfl rfl (List.not_mem_nil fid)]

theorem claim_C4_amended_witness :
    (injectEnter ΦShared (0 + 4) [.name ("service")]
        (junkieInit [("service", .factory 0)])).2 = .ok [.obj 0] ∧
    (injectEnter ΦShared (0 + 2) [.name ("service")]
        (injectEnter ΦShared (0 + 4) [.name ("service")]
          (junkieInit [("service", .factory 0)])).1).2 = .ok [.obj 0] ∧
    (injectEnter ΦShared (0 + 4) [.name ("service")]
        (injectExit 0 true (injectExit 1 true
          (injectEnter ΦShared (0 + 2) [.name ("service")]
            (injectEnter ΦShared (0 + 4) [.name ("service")]
              (junkieInit [("service", .factory 0)])).1).1))).2 = .ok [.obj 1] ∧
    ¬(Value.obj 0 = Value.obj 1) :=
  claim_C4_amended ΦShared 0 rfl rfl rfl rfl rfl 0 0 0

/-- C5, evaluated at the failing input of the repository's own
test_bugfix.py: after inject of a factory whose call raises, the pushed
scope frame, the instantiation-stack entry and the cycle-set entry all
survive the failed resolution, and a second inject of the same factory on
the same resolver raises a spurious dependency-cycle JunkieError instead
of the factory error. -/
theorem claim_C5_state_leak :
    (inject ΦFaulty 9 [.factory 0] true (junkieInit [])).2 = .error (.user 0) ∧
    (junkieInit []).frames.length = 1 ∧
    (inject ΦFaulty 9 [.factory 0] true (junkieInit [])).1.frames.length = 2 ∧
    (inject ΦFaulty 9 [.factory 0] true (junkieInit [])).1.cycleSet = [0] ∧
    (inject ΦFaulty 9 [.factory 0] true (junkieInit [])).1.instStack = [0] ∧
    (inject ΦFaulty 9 [.factory 0] true
        (inject ΦFaulty 9 [.factory 0] true (junkieInit [])).1).2
      = .error (.junkie [0] (.dependencyCycle 0)) :=
  ⟨rfl, rfl, rfl, rfl, rfl, rfl⟩

theorem buildParams_unresolvable (Φ : Nat → FactorySpec) (fid : Nat) (p : Param)
    (rest : List Param) (acc : Buckets) (pf : Bool) (fuel : Nat) (st : JunkieState)
    (hk1 : ¬p.kind = PKind.varPos) (hk2 : ¬p.kind = PKind.varKw)
    (hd : p.hasDefault = false) (ha : p.annot = none)
    (hfr : alistLookup p.name st.headFrame = none)
    (hctx : alistLookup p.name st.context = none) :
    buildParams Φ fuel fid (p :: rest) acc pf st
      = (st, .error (.junkie st.instStack (.unableToFindParam p.name fid))) := by
  unfold buildParams
  simp [hfr, hctx, hk1, hk2, hd, ha]

/-- C6: a factory whose parameter is a normal parameter bound neither in
the scope frame nor the registry, with no default and no callable
annotation, fails with the unresolved-parameter JunkieError whose kind
names the parameter and the enclosing factory, whose path ends at the
enclosing factory, and whose detail text spells out both names. -/
theorem claim_C6_unresolved_param (Φ : Nat → FactorySpec) (fid : Nat) (p : Param)
    (iname : Option String) (s : JunkieState) (n : Nat)
    (hps : (Φ fid).params = [p])
    (hk1 : ¬p.kind = PKind.varPos) (hk2 : ¬p.kind = PKind.varKw)
    (hd : p.hasDefault = false) (ha : p.annot = none)
    (hfr : alistLookup p.name s.headFrame = none)
    (hctx : alistLookup p.name s.context = none)
    (hb : (Φ fid).builtin = false) (hi : (Φ fid).inspectFails = false)
    (hm : fid ∉ s.cycleSet) :
    buildByFactory Φ (n + 1) fid iname s
      = ({ s with cycleSet := fid :: s.cycleSet, instStack := s.instStack ++ [fid] },
         .error (.junkie (s.instStack ++ [fid]) (.unableToFindParam p.name fid))) ∧
    renderKind Φ (.unableToFindParam p.name fid)
      = "Unable to find \"" ++ p.name ++ "\" for \"" ++ (Φ fid).fname ++ "()\"" := by
  refine ⟨?_, rfl⟩
  unfold buildByFactory
  rw [if_neg (by rw [hb]; exact Bool.false_ne_true), if_neg hm]
  dsimp only
  rw [if_neg (by rw [hi]; exact Bool.false_ne_true), hps]
  rw [buildParams_unresolvable Φ fid p [] ⟨[], none, [], none⟩ false n
    { s with cycleSet := fid :: s.cycleSet, instStack := s.instStack ++ [fid] }
    hk1 hk2 hd ha hfr hctx]

theorem claim_C6_unresolved_param_witness :
    buildByFactory ΦChain 5 1 none (junkieInit [])
      = ({ junkieInit [] with cycleSet := [1], instStack := [1] },
         .error (.junkie [1] (.unableToFindParam ("x") 1))) ∧
    renderKind ΦChain (.unableToFindParam ("x") 1)
      = "Unable to find \"x\" for \"DB()\"" :=
  have H := claim_C6_unresolved_param ΦChain 1 ⟨"x", .posOrKw, false, none⟩ none
    (junkieInit []) 4 rfl (by decide) (by decide) rfl rfl rfl rfl rfl rfl
    (List.not_mem_nil 1)
  ⟨H.1, H.2⟩

set_option maxHeartbeats 1000000 in
/-- C3: a name already bound in the active scope frame resolves to the
bound instance with no state change and no factory invocation; a factory
built under a name binds its instance under that name in the active
frame; and in the diamond scenario the shared dependency factory is
invoked exactly once, with both dependents receiving the identical
instance. -/
theorem claim_C3_memoization (Φ : Nat → FactorySpec) :
    (∀ fuel nm s v, alistLookup nm s.headFrame = some v →
      buildByName Φ fuel nm s = (s, .ok v)) ∧
    (∀ fuel fid nm s s2 v, buildByFactory Φ fuel fid (some nm) s = (s2, .ok v) →
      alistLookup nm s2.headFrame = some v) ∧
    ((inject ΦDiamond 12 [.name ("a"), .name ("b")] true (junkieInit ctxDiamond)).1.events.countP
        (fun e => match e with | .invoke 2 _ => true | _ => false) = 1 ∧
     (inject ΦDiamond 12 [.name ("a"), .name ("b")] true (junkieInit ctxDiamond)).1.events
        = [.invoke 2 [], .invoke 0 [(("d" : String), .obj 0)],
           .invoke 1 [(("d" : String), .obj 0)]] ∧
     (inject ΦDiamond 12 [.name ("a"), .name ("b")] true (junkieInit ctxDiamond)).2
        = .ok [.obj 1, .obj 2]) := by
  refine ⟨?_, ?_, ?_, ?_, ?_⟩
  · intro fuel nm s v h
    unfold buildByName
    rw [h]
  · intro fuel fid nm s s2 v h
    cases fuel with
    | zero =>
        unfold buildByFactory at h
        split at h
        · injection h with h1 h2
          exact Except.noConfusion h2
        · split at h
          · injection h with h1 h2
            exact Except.noConfusion h2
          · injection h with h1 h2
            exact Except.noConfusion h2
    | succ n =>
        unfold buildByFactory at h
        split at h
        · injection h with h1 h2
          exact Except.noConfusion h2
        · split at h
          · injection h with h1 h2
            exact Except.noConfusion h2
          · dsimp only at h
            split at h
            · injection h with h1 h2
              exact Except.noConfusion h2
            · split at h
              · injection h with h1 h2
                exact Except.noConfusion h2
              · rename_i s2b bk hp
                split at h
                · injection h with h1 h2
                  exact Except.noConfusion h2
                · split at h
                  · injection h with h1 h2
                    exact Except.noConfusion h2
                  · rename_i s5 u hcm
                    injection h with h1 h2
                    injection h2 with h3
                    subst h1
                    subst h3
                    simp [JunkieState.headFrame, JunkieState.bindName,
                      alistLookup_alistInsert]
  · have hev : (inject ΦDiamond 12 [.name ("a"), .name ("b")] true
        (junkieInit ctxDiamond)).1.events
        = [.invoke 2 [], .invoke 0 [(("d" : String), .obj 0)],
           .invoke 1 [(("d" : String), .obj 0)]] := by
      simp [inject, injectEnter, injectExit, unwind, buildInstance, buildTuple, buildByName,
        buildByFactory, buildParams, enterContext, dispatchBucket, alistLookup, alistInsert,
        junkieInit, JunkieState.mk0, JunkieState.headFrame, JunkieState.bindName,
        JunkieState.addEvent, stackRegs, ctxDiamond, ΦDiamond, plainFactory]
    rw [hev]
    rfl
  · simp [inject, injectEnter, injectExit, unwind, buildInstance, buildTuple, buildByName,
      buildByFactory, buildParams, enterContext, dispatchBucket, alistLookup, alistInsert,
      junkieInit, JunkieState.mk0, JunkieState.headFrame, JunkieState.bindName,
      JunkieState.addEvent, stackRegs, ctxDiamond, ΦDiamond, plainFactory]
  · simp [inject, injectEnter, injectExit, unwind, buildInstance, buildTuple, buildByName,
      buildByFactory, buildParams, enterContext, dispatchBucket, alistLookup, alistInsert,
      junkieInit, JunkieState.mk0, JunkieState.headFrame, JunkieState.bindName,
      JunkieState.addEvent, stackRegs, ctxDiamond, ΦDiamond, plainFactory]

theorem claim_C3_memoization_witness :
    alistLookup ("d") ((junkieInit ctxDiamond).bindName ("d") (.obj 7)).headFrame
      = some (.obj 7) ∧
    buildByName ΦDiamond 3 ("d") ((junkieInit ctxDiamond).bindName ("d") (.obj 7))
      = ((junkieInit ctxDiamond).bindName ("d") (.obj 7), .ok (.obj 7)) ∧
    alistLookup ("d")
        (buildByFactory ΦDiamond 5 2 (some ("d")) (junkieInit ctxDiamond)).1.headFrame
      = some (.obj 0) :=
  ⟨rfl,
   (claim_C3_memoization ΦDiamond).1 3 ("d")
     ((junkieInit ctxDiamond).bindName ("d") (.obj 7)) (.obj 7) rfl,
   (claim_C3_memoization ΦDiamond).2.1 5 2 ("d") (junkieInit ctxDiamond)
     (buildByFactory ΦDiamond 5 2 (some ("d")) (junkieInit ctxDiamond)).1 (.obj 0)
     (Prod.ext rfl rfl)⟩

theorem claim_C8_extend_witness :
    (∃ s2, Junkie.extend (junkieInit ctxShared) [(("x" : String), RegEntry.value (.prim 1))]
        = .ok s2 ∧
      ∀ k v, (k, v) ∈ [(("x" : String), RegEntry.value (.prim 1))] →
        alistLookup k s2.context = some v) ∧
    (∃ dups, Junkie.extend (junkieInit ctxShared) [(("a" : String), RegEntry.value (.prim 1))]
        = .error dups ∧ dups ≠ [] ∧
      ∀ k, k ∈ dups ↔ k ∈ List.map Prod.fst [(("a" : String), RegEntry.value (.prim 1))] ∧
        ((alistLookup k (junkieInit ctxShared).headFrame).isSome = true ∨
         (alistLookup k (junkieInit ctxShared).context).isSome = true)) :=
  ⟨(claim_C8_extend (junkieInit ctxShared) [("x", .value (.prim 1))]
      (by decide) (by decide)).2 (by decide),
   (claim_C8_extend (junkieInit ctxShared) [("a", .value (.prim 1))]
      (by decide) (by decide)).1 ⟨"a", by decide, by decide⟩⟩

theorem claim_C10_extended_registry_witness :
    Junkie.extend (junkieInit ctxShared) [(("x" : String), RegEntry.value (.prim 1))]
      = .ok (JunkieState.mk0 [(("x" : String), RegEntry.value (.prim 1))] 0) ∧
    alistLookup ("a") (junkieInit ctxShared).context = some (.factory 0) ∧
    alistLookup ("a") (JunkieState.mk0 [(("x" : String), RegEntry.value (.prim 1))] 0).context
      = none :=
  ⟨rfl, rfl,
   (claim_C10_extended_registry (junkieInit ctxShared) [("x", .value (.prim 1))]
      (JunkieState.mk0 [("x", RegEntry.value (.prim 1))] 0) (by decide) rfl).2.2
     ("a") (by decide) rfl rfl⟩
